import Mathlib

/-!
Verification of the veswatch-api core: the concurrency-safe rate store
(internal/rates), the fetch-orchestration service (internal/rates/service.go)
and the scheduler (internal/scheduler).

Modelling conventions:
- Go float64 values are embedded as exact rationals (ℚ); the arithmetic in
  GetRateData (subtraction, division, multiplication, conversion to int) is
  mirrored operation for operation.
- Go time.Time instants are embedded as ℤ nanoseconds since the Unix epoch
  (time.Time carries nanosecond precision).  The fixed zone VET = UTC-4 is a
  constant shift; day numbers and weekdays are computed with floor division,
  which is what Go's calendar arithmetic does for instants before and after
  the epoch.  Day 0 (1970-01-01) is a Thursday, and Go numbers weekdays
  Sunday = 0 .. Saturday = 6, so the weekday of day d is (d + 4) mod 7.
- A Go error value is embedded as Option FetchError: none is the nil error,
  some e a concrete failure.  A scraper's Fetch result is Except FetchError ℚ.
- The two scheduler goroutines are embedded as recursive runs over an explicit
  schedule: each list entry records which arm of the select fired (the closed
  stop channel or the timer) and, for a timer arm, the wake instant and the
  fetch outcome of that iteration.
-/

/-! ## Time model (internal/scheduler, nextBCVRunTime / isWeekday) -/

def nsPerDay : ℤ := 86400000000000

def nsPerHour : ℤ := 3600000000000

def nsPerMin : ℤ := 60000000000

/-- time.FixedZone("VET", -4*60*60): the zone offset in nanoseconds. -/
def vetOffsetNs : ℤ := -4 * nsPerHour

/-- targetHour = 11, targetMinute = 30, as nanoseconds into the local day. -/
def targetOfDayNs : ℤ := 11 * nsPerHour + 30 * nsPerMin

/-- now.In(loc): local wall-clock nanoseconds of a Unix instant in VET. -/
def localOf (unixNs : ℤ) : ℤ := unixNs + vetOffsetNs

/-- Calendar day number (days since 1970-01-01) of a local-time value. -/
def dayOf (localNs : ℤ) : ℤ := localNs / nsPerDay

/-- Go weekday numbering (Sunday = 0 .. Saturday = 6) of a day number;
day 0 = 1970-01-01 was a Thursday (= 4). -/
def weekdayOfDay (d : ℤ) : ℤ := (d + 4) % 7

/-- next.Weekday() == time.Saturday || next.Weekday() == time.Sunday,
for a local-time instant. -/
def isWeekendLocal (localNs : ℤ) : Bool :=
  weekdayOfDay (dayOf localNs) == 6 || weekdayOfDay (dayOf localNs) == 0

/-- The for-loop of nextBCVRunTime: while the candidate falls on Saturday or
Sunday, add 24 hours.  The Go loop is unbounded; seven units of fuel are
enough because weekdays cycle with period 7 (at most two weekend days are
crossed), so this equals the loop's result. -/
def skipWeekend : ℕ → ℤ → ℤ
  | 0, t => t
  | n + 1, t => if isWeekendLocal t then skipWeekend n (t + nsPerDay) else t

/-- nextBCVRunTime from internal/scheduler: takes the current instant (Unix
nanoseconds, the time.Now() the Go code reads), converts to VET, builds
today's 11:30:00 local target, moves it to tomorrow if now is strictly past
it (now.After(next)), then skips weekend days; the result is returned as a
Unix instant. -/
def nextBCVRunTime (now : ℤ) : ℤ :=
  let nowL := localOf now
  let next0 := dayOf nowL * nsPerDay + targetOfDayNs
  let next1 := if nowL > next0 then next0 + nsPerDay else next0
  skipWeekend 7 next1 - vetOffsetNs

/-- isWeekday from internal/scheduler: weekday != Saturday && weekday != Sunday,
evaluated at the current instant (expressed in local nanoseconds). -/
def isWeekday (localNs : ℤ) : Bool :=
  !(weekdayOfDay (dayOf localNs) == 6) && !(weekdayOfDay (dayOf localNs) == 0)

/-! ## RateStore (internal/rates) -/

/-- Go int(x) conversion of a float: truncation toward zero. -/
def truncTowardZero (q : ℚ) : ℤ := if 0 ≤ q then ⌊q⌋ else ⌈q⌉

/-- RateData from internal/rates: the JSON payload served to consumers. -/
structure RateData where
  bcv : ℚ
  binance : ℚ
  breach : ℚ
  updatedAt : ℤ
deriving DecidableEq

/-- RateStore from internal/rates: the two readings and their timestamps.
The RWMutex only serializes access and is invisible to the sequential
semantics of each operation. -/
structure RateStore where
  bcv : ℚ
  binance : ℚ
  bcvTime : ℤ
  binTime : ℤ
deriving DecidableEq

/-- SetBCV: store the rate and stamp it with time.Now() (passed explicitly). -/
def RateStore.SetBCV (s : RateStore) (rate : ℚ) (now : ℤ) : RateStore :=
  { s with bcv := rate, bcvTime := now }

/-- SetBinance: store the rate and stamp it with time.Now() (passed explicitly). -/
def RateStore.SetBinance (s : RateStore) (rate : ℚ) (now : ℤ) : RateStore :=
  { s with binance := rate, binTime := now }

/-- GetRateData from internal/rates: breach is 0 unless bcv > 0, otherwise
((binance - bcv) / bcv) * 100; updatedAt is binTime if binTime.After(bcvTime)
else bcvTime; finally breach is passed through float64(int(breach*100))/100. -/
def RateStore.GetRateData (s : RateStore) : RateData :=
  let breach : ℚ := if s.bcv > 0 then (s.binance - s.bcv) / s.bcv * 100 else 0
  let updatedAt := if s.binTime > s.bcvTime then s.binTime else s.bcvTime
  let breach2 := (truncTowardZero (breach * 100) : ℚ) / 100
  { bcv := s.bcv, binance := s.binance, breach := breach2, updatedAt := updatedAt }

/-! ## Service (internal/rates/service.go) -/

/-- The error type of a failed Fetch (source unreachable, malformed payload,
no usable data); the message text is all the core ever inspects. -/
def FetchError : Type := String

instance : DecidableEq FetchError := fun a b => String.decEq a b

/-- Service from internal/rates/service.go.  The two Scraper collaborators are
external; each call site receives the Fetch outcome as an explicit
Except FetchError ℚ argument. -/
structure Service where
  store : RateStore
deriving DecidableEq

/-- FetchBCV: on Fetch failure return the error and leave the store untouched;
on success write the rate (with its capture instant) and return nil. -/
def Service.FetchBCV (svc : Service) (fetched : Except FetchError ℚ) (now : ℤ) :
    Option FetchError × Service :=
  match fetched with
  | Except.error e => (some e, svc)
  | Except.ok rate => (none, { store := svc.store.SetBCV rate now })

/-- FetchBinance: on Fetch failure return the error and leave the store
untouched; on success write the rate and return nil. -/
def Service.FetchBinance (svc : Service) (fetched : Except FetchError ℚ) (now : ℤ) :
    Option FetchError × Service :=
  match fetched with
  | Except.error e => (some e, svc)
  | Except.ok rate => (none, { store := svc.store.SetBinance rate now })

/-- GetRates: the snapshot served to the HTTP layer. -/
def Service.GetRates (svc : Service) : RateData := svc.store.GetRateData

/-- Names of the two rate sources, used to record which fetch ran. -/
inductive Src where
  | bcv : Src
  | binance : Src
deriving DecidableEq

/-- Service.Initialize from internal/rates/service.go: fetch Binance first,
then BCV, sequentially; each error is only logged and discarded, and the
function itself returns nothing.  The second component records, in call
order, which fetches were invoked. -/
def InitializeRates (svc : Service) (resB resA : Except FetchError ℚ) (tB tA : ℤ) :
    Service × List Src :=
  let rB := svc.FetchBinance resB tB
  let rA := rB.2.FetchBCV resA tA
  (rA.2, [Src.binance, Src.bcv])

/-! ## Scheduler job loops (internal/scheduler) -/

/-- Which arm of a job loop's select fired: the closed stop channel, or the
timer (ticker.C in binanceJob, time.After(waitDuration) in bcvDailyJob). -/
inductive Branch where
  | stop : Branch
  | timer : Branch
deriving DecidableEq

/-- One timer firing: the instant at which the loop woke (local nanoseconds,
as read by the weekday check), and the Fetch outcome of that iteration. -/
structure TimerTick where
  wakeTime : ℤ
  fetched : Except FetchError ℚ

/-- The body run after bcvDailyJob's time.After fires: fetch only if
isWeekday, otherwise skip; the list records whether FetchBCV was invoked. -/
def bcvWakeStep (svc : Service) (tick : TimerTick) : Service × List Src :=
  if isWeekday tick.wakeTime then
    ((svc.FetchBCV tick.fetched tick.wakeTime).2, [Src.bcv])
  else
    (svc, [])

/-- The bcvDailyJob loop, run against an explicit schedule of select
resolutions.  A stop entry exits the loop at once (final Bool true = the
goroutine returned and wg.Done ran); a timer entry runs the wake body and
recurses, which in the code is the recomputation of the next target.
An exhausted schedule leaves the loop still suspended (false). -/
def bcvDailyJobRun (svc : Service) : List (Branch × TimerTick) → Service × List Src × Bool
  | [] => (svc, [], false)
  | (Branch.stop, _) :: _ => (svc, [], true)
  | (Branch.timer, tick) :: rest =>
    let step := bcvWakeStep svc tick
    let cont := bcvDailyJobRun step.1 rest
    (cont.1, step.2 ++ cont.2.1, cont.2.2)

/-- The binanceJob loop, run against an explicit schedule: a stop entry exits
at once; every ticker entry invokes FetchBinance unconditionally. -/
def binanceJobRun (svc : Service) : List (Branch × TimerTick) → Service × List Src × Bool
  | [] => (svc, [], false)
  | (Branch.stop, _) :: _ => (svc, [], true)
  | (Branch.timer, tick) :: rest =>
    let svc2 := (svc.FetchBinance tick.fetched tick.wakeTime).2
    let cont := binanceJobRun svc2 rest
    (cont.1, Src.binance :: cont.2.1, cont.2.2)

/-! ## Helper lemmas about the time model -/

lemma isWeekendLocal_eq_false_iff (t : ℤ) :
    isWeekendLocal t = false ↔ weekdayOfDay (dayOf t) ≠ 6 ∧ weekdayOfDay (dayOf t) ≠ 0 := by
  simp [isWeekendLocal]

lemma weekday_add_day (t : ℤ) :
    weekdayOfDay (dayOf (t + nsPerDay)) = (weekdayOfDay (dayOf t) + 1) % 7 := by
  simp only [weekdayOfDay, dayOf, nsPerDay]
  omega

lemma weekday_bounds (t : ℤ) :
    0 ≤ weekdayOfDay (dayOf t) ∧ weekdayOfDay (dayOf t) < 7 := by
  simp only [weekdayOfDay, dayOf, nsPerDay]
  omega

lemma skipWeekend_mod (n : ℕ) (t : ℤ) :
    skipWeekend n t % nsPerDay = t % nsPerDay := by
  induction n generalizing t with
  | zero => rfl
  | succ n ih =>
    unfold skipWeekend
    by_cases h : isWeekendLocal t
    · rw [if_pos h, ih]
      simp only [nsPerDay]
      omega
    · rw [if_neg h]

lemma skipWeekend_le (n : ℕ) (t : ℤ) : t ≤ skipWeekend n t := by
  induction n generalizing t with
  | zero => exact le_refl t
  | succ n ih =>
    unfold skipWeekend
    by_cases h : isWeekendLocal t
    · rw [if_pos h]
      have := ih (t + nsPerDay)
      simp only [nsPerDay] at *
      omega
    · rw [if_neg h]

lemma skipWeekend_not_weekend (t : ℤ) : isWeekendLocal (skipWeekend 7 t) = false := by
  by_cases h1 : isWeekendLocal t
  · have hw1 : weekdayOfDay (dayOf t) = 6 ∨ weekdayOfDay (dayOf t) = 0 := by
      rcases Bool.or_eq_true_iff.mp h1 with h | h
      · exact Or.inl (by simpa using h)
      · exact Or.inr (by simpa using h)
    unfold skipWeekend
    rw [if_pos h1]
    rcases hw1 with hw | hw
    · have h2 : isWeekendLocal (t + nsPerDay) = true := by
        simp [isWeekendLocal, weekday_add_day, hw]
      unfold skipWeekend
      rw [if_pos h2]
      have h3 : isWeekendLocal (t + nsPerDay + nsPerDay) = false := by
        rw [isWeekendLocal_eq_false_iff, weekday_add_day, weekday_add_day, hw]
        norm_num
      unfold skipWeekend
      rw [if_neg (by simp [h3]), h3]
    · have h2 : isWeekendLocal (t + nsPerDay) = false := by
        rw [isWeekendLocal_eq_false_iff, weekday_add_day, hw]
        norm_num
      unfold skipWeekend
      rw [if_neg (by simp [h2]), h2]
  · unfold skipWeekend
    rw [if_neg h1]
    exact Bool.not_eq_true _ |>.mp h1

/-! ## Claim theorems -/

/-- C1: a failed Fetch makes FetchBCV (resp. FetchBinance) return exactly the
underlying error, and the whole Service state - hence every RateStore field,
both values and both timestamps - is the same after the call as before it. -/
theorem fetch_failure_returns_error_and_preserves_store
    (svc : Service) (e : FetchError) (t1 t2 : ℤ) :
    svc.FetchBCV (Except.error e) t1 = (some e, svc) ∧
    svc.FetchBinance (Except.error e) t2 = (some e, svc) :=
  ⟨rfl, rfl⟩

/-- C2: whenever the stored BCV value is strictly positive, the breach field
of GetRateData is ((binance - bcv) / bcv) * 100 truncated (toward zero, not
rounded) to two decimal places. -/
theorem getRateData_breach_truncated (s : RateStore) (h : 0 < s.bcv) :
    s.GetRateData.breach =
      (truncTowardZero ((s.binance - s.bcv) / s.bcv * 100 * 100) : ℚ) / 100 := by
  simp only [RateStore.GetRateData, if_pos h]

/-- C2 witness: for bcv = 45.82 and binance = 46.31 the exact ratio is
(0.49 / 45.82) * 100 = 1.06940..., and the returned breach is 1.06 - the
value is truncated, not rounded up to 1.07. -/
theorem getRateData_breach_truncated_witness :
    (0 : ℚ) < 4582 / 100 ∧
    (RateStore.mk (4582 / 100) (4631 / 100) 0 0).GetRateData.breach = 106 / 100 ∧
    (106 : ℚ) / 100 ≠ 107 / 100 := by
  refine ⟨by norm_num, ?_, by norm_num⟩
  rw [getRateData_breach_truncated (RateStore.mk (4582 / 100) (4631 / 100) 0 0) (by norm_num)]
  have htr : truncTowardZero (245000 / 2291 : ℚ) = 106 := by
    unfold truncTowardZero
    rw [if_pos (by norm_num), Int.floor_eq_iff]
    constructor <;> norm_num
  have harg : ((RateStore.mk (4582 / 100) (4631 / 100) 0 0 : RateStore).binance -
        (RateStore.mk (4582 / 100) (4631 / 100) 0 0 : RateStore).bcv) /
        (RateStore.mk (4582 / 100) (4631 / 100) 0 0 : RateStore).bcv * 100 * 100 =
        (245000 / 2291 : ℚ) := by
    norm_num
  rw [harg, htr]
  norm_num

/-- C3: when the stored BCV value is zero the breach field is 0, no matter
what the Binance value is; the division branch is never taken. -/
theorem getRateData_breach_zero_of_bcv_zero (s : RateStore) (h : s.bcv = 0) :
    s.GetRateData.breach = 0 := by
  simp only [RateStore.GetRateData, h]
  norm_num [truncTowardZero]

/-- C3 witness: bcv = 0 with binance = 50 yields breach 0. -/
theorem getRateData_breach_zero_of_bcv_zero_witness :
    (RateStore.mk 0 50 0 0).bcv = 0 ∧ (RateStore.mk 0 50 0 0).GetRateData.breach = 0 :=
  ⟨rfl, getRateData_breach_zero_of_bcv_zero (RateStore.mk 0 50 0 0) rfl⟩

/-- C6: the updatedAt field of GetRateData is the later of the two stored
timestamps (the BCV capture time and the Binance capture time). -/
theorem getRateData_updatedAt_is_max (s : RateStore) :
    s.GetRateData.updatedAt = max s.bcvTime s.binTime := by
  simp only [RateStore.GetRateData]
  rcases le_or_lt s.binTime s.bcvTime with h | h
  · rw [if_neg (not_lt.mpr h), max_eq_left h]
  · rw [if_pos h, max_eq_right h.le]

/-- C10: the guard in GetRateData tests bcv > 0, not bcv different from 0, so
a strictly negative stored BCV value (reachable because SetBCV stores any
rate without validation) also yields breach = 0. -/
theorem getRateData_breach_zero_of_bcv_neg
    (s : RateStore) (s2 : RateStore) (r : ℚ) (t : ℤ) (h : s.bcv < 0) :
    s.GetRateData.breach = 0 ∧ (s2.SetBCV r t).bcv = r := by
  refine ⟨?_, rfl⟩
  simp only [RateStore.GetRateData, if_neg (not_lt.mpr h.le)]
  norm_num [truncTowardZero]

/-- C10 witness: a store holding bcv = -1 (put there by SetBCV, which performs
no validation) reports breach 0. -/
theorem getRateData_breach_zero_of_bcv_neg_witness :
    (RateStore.mk (-1) 50 0 0).bcv < 0 ∧
    (RateStore.mk (-1) 50 0 0).GetRateData.breach = 0 ∧
    ((RateStore.mk 0 0 0 0).SetBCV (-1) 0).bcv = -1 := by
  have h := getRateData_breach_zero_of_bcv_neg
    (RateStore.mk (-1) 50 0 0) (RateStore.mk 0 0 0 0) (-1) 0 (by norm_num)
  exact ⟨by norm_num, h.1, h.2⟩

/-- C4: for every instant now, nextBCVRunTime yields an instant whose VET
wall-clock time-of-day is exactly 11:30:00 (hour 11, minute 30), whose VET
date falls on Monday through Friday, and which - being a pure function of
now - is the same value on every evaluation for that fixed now. -/
theorem nextBCVRunTime_calendar (now : ℤ) :
    localOf (nextBCVRunTime now) % nsPerDay / nsPerHour = 11 ∧
    localOf (nextBCVRunTime now) % nsPerDay % nsPerHour / nsPerMin = 30 ∧
    1 ≤ weekdayOfDay (dayOf (localOf (nextBCVRunTime now))) ∧
    weekdayOfDay (dayOf (localOf (nextBCVRunTime now))) ≤ 5 ∧
    nextBCVRunTime now = nextBCVRunTime now := by
  unfold nextBCVRunTime localOf
  set nowL := now + vetOffsetNs with hnowL
  set next0 := dayOf nowL * nsPerDay + targetOfDayNs with hnext0
  set next1 := if nowL > next0 then next0 + nsPerDay else next0 with hnext1
  have hcancel : skipWeekend 7 next1 - vetOffsetNs + vetOffsetNs = skipWeekend 7 next1 := by
    ring
  have hmod1 : next1 % nsPerDay = targetOfDayNs := by
    have h0 : next0 % nsPerDay = targetOfDayNs := by
      rw [hnext0]
      simp only [dayOf, nsPerDay, targetOfDayNs, nsPerHour, nsPerMin]
      omega
    rw [hnext1]
    split
    · simp only [nsPerDay, targetOfDayNs, nsPerHour, nsPerMin] at *
      omega
    · exact h0
  have hmod : skipWeekend 7 next1 % nsPerDay = targetOfDayNs := by
    rw [skipWeekend_mod]
    exact hmod1
  have hnw := skipWeekend_not_weekend next1
  rw [isWeekendLocal_eq_false_iff] at hnw
  have hb := weekday_bounds (skipWeekend 7 next1)
  refine ⟨?_, ?_, ?_, ?_, rfl⟩
  · rw [hcancel]
    simp only [nsPerDay, targetOfDayNs, nsPerHour, nsPerMin] at *
    omega
  · rw [hcancel]
    simp only [nsPerDay, targetOfDayNs, nsPerHour, nsPerMin] at *
    omega
  · rw [hcancel]
    omega
  · rw [hcancel]
    omega

/-- C5 counterexample: at now = Monday 1970-01-05 exactly 11:30:00.000000000
VET (Unix nanoseconds 401400000000000), a weekday whose wall-clock time is
exactly the 11:30 target, nextBCVRunTime returns now itself - now.After(next)
is strict, so the result is not strictly later than now, contradicting the
claim. -/
theorem nextBCVRunTime_not_strictly_later :
    weekdayOfDay (dayOf (localOf 401400000000000)) = 1 ∧
    localOf 401400000000000 % nsPerDay = targetOfDayNs ∧
    nextBCVRunTime 401400000000000 = 401400000000000 ∧
    ¬ (401400000000000 < nextBCVRunTime 401400000000000) := by
  refine ⟨by decide, by decide, by decide, ?_⟩
  have h : nextBCVRunTime 401400000000000 = 401400000000000 := by decide
  rw [h]
  omega

/-- C5 amended: for every instant now, nextBCVRunTime now is later than or
equal to now; equality can occur (exactly when now is a weekday 11:30:00 VET
instant), so "strictly later" weakens to "not earlier". -/
theorem nextBCVRunTime_ge (now : ℤ) : now ≤ nextBCVRunTime now := by
  unfold nextBCVRunTime localOf
  set nowL := now + vetOffsetNs with hnowL
  set next0 := dayOf nowL * nsPerDay + targetOfDayNs with hnext0
  set next1 := if nowL > next0 then next0 + nsPerDay else next0 with hnext1
  have h1 : nowL ≤ next1 := by
    rw [hnext1, hnext0]
    simp only [dayOf, nsPerDay, targetOfDayNs, nsPerHour, nsPerMin]
    split <;> omega
  have h2 := skipWeekend_le 7 next1
  show now ≤ skipWeekend 7 next1 - vetOffsetNs
  omega

/-- C7: Initialize invokes the Binance fetch first and the BCV fetch second
(the recorded call order is [binance, bcv] in every case); a Binance failure
does not prevent the BCV fetch from updating the store, and vice versa; and
the function is total with no error in its result type - it completes
normally even when both fetches fail, in which case the service state is
simply unchanged. -/
theorem initializeRates_order_and_isolation
    (svc : Service) (resB resA : Except FetchError ℚ) (tB tA : ℤ)
    (e e2 : FetchError) (v w : ℚ) :
    (InitializeRates svc resB resA tB tA).2 = [Src.binance, Src.bcv] ∧
    (InitializeRates svc (Except.error e) (Except.ok v) tB tA).1.store.bcv = v ∧
    (InitializeRates svc (Except.ok w) (Except.error e) tB tA).1.store.binance = w ∧
    (InitializeRates svc (Except.error e) (Except.error e2) tB tA).1 = svc :=
  ⟨rfl, rfl, rfl, rfl⟩

/-- C8: when the calendar job wakes on a Saturday (weekday 6) or Sunday
(weekday 0), the iteration performs no BCV fetch and leaves the service
untouched: the whole run equals the run on the remaining schedule, i.e. the
loop just recomputes the next target and repeats. -/
theorem bcvDailyJob_skips_weekend_wake (svc : Service) (tick : TimerTick)
    (rest : List (Branch × TimerTick))
    (h : weekdayOfDay (dayOf tick.wakeTime) = 6 ∨ weekdayOfDay (dayOf tick.wakeTime) = 0) :
    bcvDailyJobRun svc ((Branch.timer, tick) :: rest) = bcvDailyJobRun svc rest := by
  have hw : isWeekday tick.wakeTime = false := by
    rcases h with h | h <;> simp [isWeekday, h]
  simp [bcvDailyJobRun, bcvWakeStep, hw]

/-- C8 witness: a wake at local instant 2 * nsPerDay (a Saturday) with a
successful fetch outcome available is skipped: the run equals the run on the
empty remaining schedule. -/
theorem bcvDailyJob_skips_weekend_wake_witness :
    weekdayOfDay (dayOf (172800000000000 : ℤ)) = 6 ∧
    bcvDailyJobRun (Service.mk (RateStore.mk 0 0 0 0))
        [(Branch.timer, TimerTick.mk 172800000000000 (Except.ok 1))] =
      bcvDailyJobRun (Service.mk (RateStore.mk 0 0 0 0)) [] :=
  ⟨by decide,
    bcvDailyJob_skips_weekend_wake (Service.mk (RateStore.mk 0 0 0 0))
      (TimerTick.mk 172800000000000 (Except.ok 1)) [] (Or.inl (by decide))⟩

/-- C9: if the stop channel is already closed when each loop reaches its
select - as when Stop() follows Start() before any timer fires, the stop arm
being ready regardless of how long the pending wait (even a 72-hour weekend
suspension) still had to run - then both loops exit immediately (final flag
true, so wg.Wait and hence Stop() return: no deadlock), no fetch is invoked
(empty event list) and the service state is untouched. -/
theorem start_then_stop_no_tick
    (svc : Service) (tickA tickB : TimerTick)
    (restA restB : List (Branch × TimerTick)) :
    binanceJobRun svc ((Branch.stop, tickB) :: restB) = (svc, [], true) ∧
    bcvDailyJobRun svc ((Branch.stop, tickA) :: restA) = (svc, [], true) :=
  ⟨rfl, rfl⟩
